import Mathlib

/-!
Verification development for the pnpjs core Timeline
(`packages/core/timeline/timeline.ts`) and Graph batching
(`packages/graph/batch.ts`, `packages/graph/invitations/index.ts`).

The TypeScript sources are shallowly embedded:

* Observer registries (`ObserverCollection`) are association lists from
  moment names to ordered observer lists, matching the JS object whose
  properties are arrays (`Reflect.defineProperty` appends a new enumerable
  property; existing arrays are mutated with `push` / `unshift` /
  `length = 0`).
* JS object identity, which the copy-on-first-write logic depends on
  (`this._parentObservers = target.observers;
  target.observers = cloneDeep(target.observers)`), is made explicit with a
  store of registry objects addressed by allocation index; `cloneDeep`
  allocates a fresh object with equal contents.
* Exceptions are `Except String`, an Error being represented by its message.
-/

namespace PnP

/-- `ObserverAddBehavior` from timeline.ts: `"add" | "replace" | "prepend"`. -/
inductive ObserverAddBehavior where
  | add
  | replace
  | prepend
deriving DecidableEq, Repr

/-- The `ObserverCollection` type from timeline.ts:
`Record<string, ValidObserver[]>`, i.e. a JS object mapping each moment name
to its ordered array of observers.  Embedded as an association list in
property-insertion order; `Obs` is the observer representation (the
registry code never inspects observers beyond the callable check, so the
registry layer is polymorphic in it). -/
abbrev ObserverCollection (Obs : Type) := List (String × List Obs)

/-- `Reflect.has(target, p)` / `Reflect.get(target, p)` on an
ObserverCollection: the observer array for moment `p`, if the property is
present. -/
def collGet {Obs : Type} (target : ObserverCollection Obs) (p : String) : Option (List Obs) :=
  match target.find? (fun kv => kv.1 = p) with
  | some kv => some kv.2
  | none => none

/-- Writing property `p` on an ObserverCollection: overwrite the existing
binding in place, else append a fresh property (`Reflect.defineProperty`). -/
def collSet {Obs : Type} (target : ObserverCollection Obs) (p : String) (l : List Obs) :
    ObserverCollection Obs :=
  match target with
  | [] => [(p, l)]
  | kv :: rest => if kv.1 = p then (p, l) :: rest else kv :: collSet rest p l

/-- `addObserver` from timeline.ts.  The source first throws
`Error("Observers must be functions.")` when the observer is not callable;
every value of `Obs` stands for a function here, so that guard cannot fire
and is omitted.  Otherwise: no existing property for the moment → define it
holding `[observer]`; else follow the behavior (`add` pushes to the end,
`prepend` unshifts to the front, `replace` empties the array then pushes). -/
def addObserver {Obs : Type} (target : ObserverCollection Obs) (moment : String)
    (observer : Obs) (addBehavior : ObserverAddBehavior) : ObserverCollection Obs :=
  match collGet target moment with
  | none => collSet target moment [observer]
  | some l =>
    match addBehavior with
    | .add => collSet target moment (l ++ [observer])
    | .prepend => collSet target moment (observer :: l)
    | .replace => collSet target moment [observer]

/-- A heap of registry objects: JS object identity for `ObserverCollection`
values is the index into `regs` (allocation order). -/
structure Store (Obs : Type) where
  regs : List (ObserverCollection Obs)
deriving DecidableEq, Repr

/-- Dereference a registry id. -/
def Store.get {Obs : Type} (s : Store Obs) (id : Nat) : ObserverCollection Obs :=
  s.regs.getD id []

/-- Mutate the registry object at `id` (in-place JS mutation: every holder
of this id observes the new contents). -/
def Store.set {Obs : Type} (s : Store Obs) (id : Nat) (c : ObserverCollection Obs) : Store Obs :=
  ⟨s.regs.set id c⟩

/-- Allocate a fresh registry object (e.g. the result of `cloneDeep`),
returning the new store and the fresh id. -/
def Store.alloc {Obs : Type} (s : Store Obs) (c : ObserverCollection Obs) : Store Obs × Nat :=
  (⟨s.regs ++ [c]⟩, s.regs.length)

/-- The observer-related fields of a `Timeline` instance:
`observers` (a reference to a registry object), `_inheritingObservers`, and
`_parentObservers` (a reference, `null` until the copy-on-first-write
transition stores one). -/
structure TimelineState where
  registry : Nat
  inheriting : Bool
  parent : Option Nat
deriving DecidableEq, Repr

/-- The `Timeline` constructor: when an observer collection is supplied the
instance aliases it and `_inheritingObservers` is set; otherwise a fresh
empty registry is allocated and the instance owns it. -/
def timelineConstruct {Obs : Type} (s : Store Obs) (observers : Option Nat) :
    Store Obs × TimelineState :=
  match observers with
  | some r => (s, ⟨r, true, none⟩)
  | none =>
    let (s2, r) := s.alloc []
    (s2, ⟨r, false, none⟩)

/-- The plain-call path of the `on` proxy (`instance.on[p](handler)`,
append mode): if the instance is still inheriting, store the parent
reference, replace the working registry by a deep copy (a freshly allocated
object with the same contents), clear the inheriting flag — then add the
handler with behavior `"add"`. -/
def onSubscribe {Obs : Type} (s : Store Obs) (t : TimelineState) (p : String) (h : Obs) :
    Store Obs × TimelineState :=
  if t.inheriting then
    let (s2, fresh) := s.alloc (s.get t.registry)
    let s3 := s2.set fresh (addObserver (s2.get fresh) p h .add)
    (s3, ⟨fresh, false, some t.registry⟩)
  else
    (s.set t.registry (addObserver (s.get t.registry) p h .add), t)

/-- The `replace` path of the `on` proxy (`instance.on[p].replace(handler)`):
it calls `addObserver(target.observers, p, handler, "replace")` directly,
with no inheriting check, so it mutates the current working registry
object in place. -/
def onReplace {Obs : Type} (s : Store Obs) (t : TimelineState) (p : String) (h : Obs) :
    Store Obs × TimelineState :=
  (s.set t.registry (addObserver (s.get t.registry) p h .replace), t)

/-- The `prepend` path of the `on` proxy: like `replace`, no inheriting
check, in-place mutation of the current working registry object. -/
def onPrepend {Obs : Type} (s : Store Obs) (t : TimelineState) (p : String) (h : Obs) :
    Store Obs × TimelineState :=
  (s.set t.registry (addObserver (s.get t.registry) p h .prepend), t)

/-- The `clear` proxy (`instance.clear[p]()`): when the working registry has
the property, truncate that array in place (`target.observers[p].length = 0`)
and return true; otherwise return false.  No inheriting check. -/
def clearMoment {Obs : Type} (s : Store Obs) (t : TimelineState) (p : String) :
    (Store Obs × TimelineState) × Bool :=
  match collGet (s.get t.registry) p with
  | some _ => ((s.set t.registry (collSet (s.get t.registry) p []), t), true)
  | none => ((s, t), false)

/-! ### The `emit` proxy (timeline.ts lines 201–244)

Moment invocation.  Observers at this layer are actual functions: an
observer receives the emitted argument and either returns (`.ok`) or throws
(`.error msg`).  The emitted argument and thrown errors are both `String`
(an Error is represented by the string interpolation `${e}` produces from
it).  A moment dispatch function receives the observer list and the
argument.  The dead `__once` block in the source (it only
`console.log`s and deletes a never-set property) has no observable effect
and is not modelled. -/

/-- Observer functions for the emit layer: given the emitted argument,
either return normally or throw. -/
abbrev ObserverFn := String → Except String Unit

/-- A moment's dispatch function, as stored in `this.moments`. -/
abbrev MomentFn := List ObserverFn → String → Except String Unit

/-- Modelled from the spec: `broadcast` from moments.js is not under src/;
the spec defines the default dispatch policy as "broadcast" (invoke every
observer, return last/void).  Observers are invoked strictly in list
order; a throw from an observer propagates out of the dispatch. -/
def broadcast : MomentFn
  | [], _ => .ok ()
  | o :: rest, arg =>
    match o arg with
    | .ok _ => broadcast rest arg
    | .error e => .error e

/-- Look up the moment dispatch function for `p`
(`Reflect.has(target.moments, p) ? Reflect.get(target.moments, p) : broadcast()`). -/
def momentFor (moments : List (String × MomentFn)) (p : String) : MomentFn :=
  match moments.find? (fun kv => kv.1 = p) with
  | some kv => kv.2
  | none => broadcast

/-- The emit handler specialised to the reserved point `"error"`:
with zero registered error observers it throws
`Unhandled Exception: ${args[0]}`; otherwise it dispatches the moment, and
a throw out of that dispatch is re-thrown (the `p !== "error"` guard in
the catch fails, so no re-routing happens).  The second component records
the emit invocations performed, as (point, argument) pairs in order. -/
def emitErrorPoint (moments : List (String × MomentFn)) (oc : ObserverCollection ObserverFn)
    (arg : String) : Except String Unit × List (String × String) :=
  let observers := (collGet oc "error").getD []
  if observers.length < 1 then
    (.error ("Unhandled Exception: " ++ arg), [("error", arg)])
  else
    match momentFor moments "error" observers arg with
    | .ok _ => (.ok (), [("error", arg)])
    | .error e => (.error e, [("error", arg)])

/-- The emit proxy handler (`this.emit[p](...args)`).  For `p = "error"` it
is `emitErrorPoint`.  For any other point: fetch the observer list (empty
when the property is absent), dispatch via the registered moment or the
default broadcast, and on a throw re-route the error as one
`this.emit.error(e)` invocation — inlined here as `emitErrorPoint`, which is
exactly `emit` at `"error"` (the single level of recursion in the source).
The catch branch returns `undefined` (`.ok ()`) when the error invocation
itself returns, and lets a throw out of the error invocation propagate. -/
def emit (moments : List (String × MomentFn)) (oc : ObserverCollection ObserverFn)
    (p : String) (arg : String) : Except String Unit × List (String × String) :=
  if p = "error" then emitErrorPoint moments oc arg
  else
    let observers := (collGet oc p).getD []
    match momentFor moments p observers arg with
    | .ok _ => (.ok (), [(p, arg)])
    | .error e =>
      let (r, calls) := emitErrorPoint moments oc e
      (r, (p, arg) :: calls)

/-! ### Graph batching (`packages/graph/batch.ts`)

Urls and wire ids are embedded as `List Char` so that the JS string
operations (`indexOf`, `substr`, `parseInt`, template interpolation of a
number) can be given faithful executable definitions. -/

/-- The decimal digit characters, used by both the number printer and the
`parseInt` reader. -/
def digitChar (d : Nat) : Char :=
  match d with
  | 0 => '0'
  | 1 => '1'
  | 2 => '2'
  | 3 => '3'
  | 4 => '4'
  | 5 => '5'
  | 6 => '6'
  | 7 => '7'
  | 8 => '8'
  | _ => '9'

/-- The numeric value of a decimal digit character, `none` for a
non-digit. -/
def digitVal (c : Char) : Option Nat :=
  if c = '0' then some 0
  else if c = '1' then some 1
  else if c = '2' then some 2
  else if c = '3' then some 3
  else if c = '4' then some 4
  else if c = '5' then some 5
  else if c = '6' then some 6
  else if c = '7' then some 7
  else if c = '8' then some 8
  else if c = '9' then some 9
  else none

/-- Decimal printing, fuelled (the fuel only bounds the recursion depth,
`fuel ≥ n` is always sufficient as the argument is divided by ten each
step). -/
def printNatAux (fuel n : Nat) : List Char :=
  match fuel with
  | 0 => []
  | fuel + 1 =>
    if n < 10 then [digitChar n]
    else printNatAux fuel (n / 10) ++ [digitChar (n % 10)]

/-- The decimal rendering of a number, as produced by JS template
interpolation of `${n}` for a non-negative integer. -/
def printNat (n : Nat) : List Char := printNatAux (n + 1) n

/-- JS `parseInt(s, 10)` restricted to non-negative results: read the
leading run of decimal digits; `none` models the `NaN` result when the
string does not start with a digit.  (The source only parses the ids it
generated itself via `${++index}`, which are plain digit strings.) -/
def jsParseInt (s : List Char) : Option Nat :=
  let ds := s.takeWhile (fun c => (digitVal c).isSome)
  if ds.isEmpty then none
  else some (ds.foldl (fun acc c => acc * 10 + (digitVal c).getD 0) 0)

/-- JS `String.prototype.indexOf`: the first position at which `pat`
occurs as a contiguous substring of `s`, `none` for the `-1` result. -/
def idxOf (s pat : List Char) : Option Nat :=
  match s with
  | [] => if pat.isPrefixOf ([] : List Char) then some 0 else none
  | _ :: rest =>
    if pat.isPrefixOf s then some 0
    else (idxOf rest pat).map (· + 1)

/-- Modelled from the spec: `isUrlAbsolute` from @pnp/core util is not
under src/; the spec describes absolute addresses as those carrying a
scheme/host, i.e. starting with `https://`, `http://`, or the
protocol-relative `//`. -/
def isUrlAbsolute (url : List Char) : Bool :=
  "https://".toList.isPrefixOf url || "http://".toList.isPrefixOf url
    || "//".toList.isPrefixOf url

/-- `makeUrlRelative` from batch.ts: a non-absolute url is returned
unchanged; otherwise the first occurrence of `"/v1.0/"` yields
`url.substr(index + 5)` (note: one character short of the marker's length
six, so the trailing slash is kept); failing that, the first occurrence of
`"/beta/"` yields `url.substr(index + 6)` (the whole marker dropped); with
neither marker the url is returned unchanged. -/
def makeUrlRelative (url : List Char) : List Char :=
  if !isUrlAbsolute url then url
  else
    match idxOf url "/v1.0/".toList with
    | some index => url.drop (index + 5)
    | none =>
      match idxOf url "/beta/".toList with
      | some index => url.drop (index + 6)
      | none => url

/-- The codec-relevant fields of a `RequestRecord` tuple
(`[Queryable, url, init, resolve, reject]`): the url and the `RequestInit`
(method, headers, body).  The queryable component is used only for a log
side effect in `formatRequests` and the resolve/reject components are
handled positionally by the queue model below.  A JSON body is carried as
its source text: `JSON.parse` is modelled as wrapping that text, since no
claim inspects parsed body structure. -/
structure RequestRecord where
  url : List Char
  method : String
  headers : List (String × String)
  body : Option String
deriving DecidableEq, Repr

/-- An `IGraphBatchRequestFragment`. -/
structure BatchRequestFragment where
  id : List Char
  method : String
  url : List Char
  headers : List (String × String)
  body : Option String
deriving DecidableEq, Repr

/-- Setting a key on a JS object spread copy: overwrite in place or append. -/
def setHeader (hs : List (String × String)) (k v : String) : List (String × String) :=
  match hs with
  | [] => [(k, v)]
  | kv :: rest => if kv.1 = k then (k, v) :: rest else kv :: setHeader rest k v

/-- `formatRequests` from batch.ts: each request record at zero-based
position `index` becomes a fragment with id `${++index}` (the decimal
string of `index + 1`), the method, the url made relative, a copy of the
headers on which `Content-Type: application/json` is forced whenever the
method is not `"GET"`, and the body (present only when a body was
supplied).  The `queryable.log(...)` call is a log side effect with no
bearing on the produced fragments and is not modelled. -/
def formatRequests (requests : List RequestRecord) (batchId : String) :
    List BatchRequestFragment :=
  let _ := batchId
  requests.mapIdx fun index req =>
    { id := printNat (index + 1)
      method := req.method
      url := makeUrlRelative req.url
      headers :=
        if req.method ≠ "GET" then setHeader req.headers "Content-Type" "application/json"
        else req.headers
      body := req.body }

/-- An `IGraphBatchResponseFragment` (the fields the parser reads). -/
structure BatchResponseFragment where
  id : List Char
  status : Nat
  body : Option String
deriving DecidableEq, Repr

/-- An `IGraphBatchResponse`: the optional top-level error (code and
message — the fields the error path interpolates), the fragment list, and
the optional `nextLink`. -/
structure BatchResponse where
  error : Option (String × String)
  responses : List BatchResponseFragment
  nextLink : Option String
deriving DecidableEq, Repr

/-- One entry of the `parsedResponses` array built by `parseResponse`. -/
inductive ParsedEntry where
  /-- The `null` the array is initially filled with. -/
  | jsNull
  /-- A hole created by assigning past the current length (JS `undefined`). -/
  | jsUndefined
  /-- `new Response()` — the empty success produced for status 204. -/
  | emptyResponse
  /-- `new Response(JSON.stringify(response.body), response)` — a response
  carrying the fragment's body and status. -/
  | response (body : Option String) (status : Nat)
deriving DecidableEq, Repr

/-- The `ParsedGraphResponse` shape `{ nextLink, responses }`. -/
structure ParsedGraphResponse where
  nextLink : Option String
  responses : List ParsedEntry
deriving DecidableEq, Repr

/-- JS array element assignment `a[i] = v` on an array of current length
`a.length`: in range it overwrites; past the end it extends the array with
holes up to `i` and places `v` there (making the length `i + 1`). -/
def jsArraySet {α : Type} (a : List α) (i : Nat) (hole v : α) : List α :=
  if i < a.length then a.set i v
  else a ++ List.replicate (i - a.length) hole ++ [v]

/-- `parseResponse` from batch.ts: reject with
`Error Porcessing Batch: (code) message` when the raw payload carries a
top-level `error` object [sic — the typo is the source's]; otherwise
allocate `new Array(responses.length).fill(null)` and, for each fragment in
arrival order, place its reconstruction at index `parseInt(id, 10) - 1` —
status 204 reconstructs as the empty success, anything else as a response
carrying the fragment's body and status.  An id that does not parse to a
positive integer makes the assignment target a non-index property of the
array object, leaving the array contents unchanged. -/
def parseResponse (graphResponse : BatchResponse) : Except String ParsedGraphResponse :=
  match graphResponse.error with
  | some (code, message) =>
    .error ("Error Porcessing Batch: (" ++ code ++ ") " ++ message)
  | none =>
    let init : List ParsedEntry :=
      List.replicate graphResponse.responses.length ParsedEntry.jsNull
    let arr := graphResponse.responses.foldl (fun acc r =>
      let entry := if r.status = 204 then ParsedEntry.emptyResponse
        else ParsedEntry.response r.body r.status
      match jsParseInt r.id with
      | some (n + 1) => jsArraySet acc n ParsedEntry.jsUndefined entry
      | _ => acc) init
    .ok ⟨graphResponse.nextLink, arr⟩

/-- The parse pipeline installed by `BatchParse()`: it performs the same
top-level error check (throwing the same message) before delegating to
`parseResponse`. -/
def batchParse (graphResponse : BatchResponse) : Except String ParsedGraphResponse :=
  match graphResponse.error with
  | some (code, message) =>
    .error ("Error Porcessing Batch: (" ++ code ++ ") " ++ message)
  | none => parseResponse graphResponse

/-! ### The batch queue's `execute` (flush) loop

`execute` drains a working copy of the registered requests with
`splice(0, maxRequests)`, posts each chunk, and schedules the chunk's
resolutions on an unawaited promise chain.  The model below makes the
JS event-loop ordering explicit as a trace of events:

* `transmit c` — the synchronous call of `graphPost` for chunk `c`
  (transmission begins);
* `respond c` — the macrotask resuming `await graphPost` with chunk `c`'s
  parsed response;
* `deliver c i` — the resolve call for the chunk's `i`-th operation
  (one job of the `reduce`-built promise chain);
* `reject c i` — the reject call in the chain's catch.  `resolve` is a
  Promise resolution function and does not throw, so this event is never
  emitted; it is kept in the event type to state settlement claims.

Scheduling facts of the source honoured by the trace: the chain built by
`reduce` for chunk `c` is not awaited, so its jobs are pending microtasks
when the loop synchronously proceeds to call `graphPost` for chunk
`c + 1`; the microtask queue drains while that `await` is suspended, i.e.
before the next response macrotask; when the loop exits (or `await`
throws), already-scheduled jobs still run. -/

/-- The outcome of the transport for one chunk: the awaited `graphPost`
either rejects (a transport-level failure) or produces a raw aggregate
response (which the `BatchParse` pipeline then decodes). -/
inductive TransportResult where
  | raise (e : String)
  | respond (raw : BatchResponse)
deriving DecidableEq, Repr

/-- The observable events of one flush. -/
inductive Event where
  | transmit (c : Nat)
  | respond (c : Nat)
  | deliver (c i : Nat)
  | reject (c i : Nat)
deriving DecidableEq, Repr

/-- The parsed response for chunk `c`, when the transport responded and
decoding succeeded. -/
def decodeOf (tr : Nat → TransportResult) (c : Nat) : Option ParsedGraphResponse :=
  match tr c with
  | .raise _ => none
  | .respond raw => (batchParse raw).toOption

/-- Whether the array slot at index `i` exists as a property of the JS
array object: every slot below the originally allocated length exists
(`new Array(n).fill(null)` creates them all), while an index reached only
by extending the array past its length is a hole and does not exist. -/
def slotExists (arr : List ParsedEntry) (i : Nat) : Bool :=
  match arr.getD i ParsedEntry.jsUndefined with
  | ParsedEntry.jsUndefined => false
  | _ => true

/-- The array indices for which chunk `c`'s promise chain runs a resolve
job, in chain order.  `Array.prototype.reduce` visits only EXISTING
indices, in ascending order, skipping holes of a sparse array; and a
visited index with no corresponding request (`index ≥ chunkLen`) makes
the chain's destructuring of `requestsChunk[index]` throw, killing the
rest of the chain — since visiting is ascending, every existing index
below the chunk length has already been resolved by then, so the resolve
jobs are exactly the existing indices below the chunk length. -/
def deliveredIdxs (arr : List ParsedEntry) (chunkLen : Nat) : List Nat :=
  (List.range arr.length).filter (fun i => slotExists arr i && decide (i < chunkLen))

/-- The indices chunk `c`'s chain resolves: the existing slots of its
decoded response array below the chunk length (empty when the chunk's
transport raised or its response did not decode). -/
def chunkDeliveredIdxs (tr : Nat → TransportResult) (chunkLen c : Nat) : List Nat :=
  match decodeOf tr c with
  | some parsed => deliveredIdxs parsed.responses chunkLen
  | none => []

/-- The resolve jobs of chunk `c`'s promise chain, in chain order. -/
def deliveries (c : Nat) (idxs : List Nat) : List Event :=
  idxs.map (Event.deliver c)

/-- The `splice(0, maxRequests)` chunking loop, fuelled by the number of
requests (each iteration with `0 < k` removes at least one element, so
`l.length` fuel always suffices; the source loops forever when
`maxRequests = 0`, a configuration no caller uses and outside this
model). -/
def chunksOfAux {α : Type} (k : Nat) : Nat → List α → List (List α)
  | 0, _ => []
  | _, [] => []
  | fuel + 1, l@(_ :: _) => if k = 0 then [] else l.take k :: chunksOfAux k fuel (l.drop k)

/-- The chunks `execute` processes, in order. -/
def chunksOf {α : Type} (k : Nat) (l : List α) : List (List α) :=
  chunksOfAux k l.length l

/-- One flush, from the first transmission on: processes the given chunks
starting at chunk index `c` with the previous chunk's resolve jobs still
`pending` on the microtask queue.  Returns the event trace and the result
of the `execute` promise (`.error` when an awaited `graphPost` rejects or
its parse throws, which aborts the loop). -/
def runTraceAux (tr : Nat → TransportResult) :
    List (List RequestRecord) → Nat → List Event → List Event × Except String Unit
  | [], _, pending => (pending, .ok ())
  | chunk :: rest, c, pending =>
    let head := Event.transmit c :: pending
    match tr c with
    | .raise e => (head, .error e)
    | .respond raw =>
      match batchParse raw with
      | .error e => (head, .error e)
      | .ok parsed =>
        let (tail, res) := runTraceAux tr rest (c + 1)
          (deliveries c (deliveredIdxs parsed.responses chunk.length))
        (head ++ Event.respond c :: tail, res)

/-- `execute` from `createBatch`: after the registration barrier, return
immediately when no request was registered; otherwise run the chunk loop
over a working copy of the registered requests. -/
def executeBatch (maxRequests : Nat) (requests : List RequestRecord)
    (tr : Nat → TransportResult) : List Event × Except String Unit :=
  if requests.length < 1 then ([], .ok ())
  else runTraceAux tr (chunksOf maxRequests requests) 0 []

/-! ### The `invitations` property (`packages/graph/invitations/index.ts`) -/

/-- A JS value as far as the `invitations` getter's caller can observe it:
either `undefined` or some object. -/
inductive JsValue where
  | undefined
  | object (id : Nat)
deriving DecidableEq, Repr

/-- The getter installed on `GraphRest.prototype` for `invitations`:
its body is the single expression statement `this.create(Invitations);`
(here `create` stands for that call, producing whatever object
`this.create(Invitations)` yields), after which the function body ends
with no return statement — so the getter evaluates to `undefined`
regardless of what `create` produced. -/
def invitationsGetter (create : Unit → JsValue) : JsValue :=
  let _ := create ()
  JsValue.undefined

/-! ### Derived notions used by the statements -/

/-- Event classifier: a transmission. -/
def Event.isTransmit : Event → Bool
  | .transmit _ => true
  | _ => false

/-- Event classifier: a resolve call. -/
def Event.isDeliver : Event → Bool
  | .deliver _ _ => true
  | _ => false

/-- Event classifier: a reject call. -/
def Event.isReject : Event → Bool
  | .reject _ _ => true
  | _ => false

/-- The operation index of a resolve call belonging to chunk `c`. -/
def deliverIdx (c : Nat) : Event → Option Nat
  | .deliver c' i => if c' = c then some i else none
  | _ => none

/-- The resolve calls a successful flush performs, chunk by chunk: for the
chunk at index `c`, one `deliver c i` job per existing decoded slot `i`
below the chunk length, in ascending index order, blocks concatenated in
chunk order. -/
def deliverBlocks (tr : Nat → TransportResult) :
    List (List RequestRecord) → Nat → List Event
  | [], _ => []
  | chunk :: rest, c =>
    deliveries c (chunkDeliveredIdxs tr chunk.length c) ++ deliverBlocks tr rest (c + 1)

/-- The error with which processing of chunk `c` fails, if it does: the
transport rejection, or the message of the parse failure of the
response. -/
def failAt (tr : Nat → TransportResult) (c : Nat) : Option String :=
  match tr c with
  | .raise e => some e
  | .respond raw =>
    match batchParse raw with
    | .error e => some e
    | .ok _ => none

/-- A response echoing a request's fragments back with status 200, each
echoed fragment additionally carrying its own id as body so that the
origin of every decoded slot is visible. -/
def echoResponse (frags : List BatchRequestFragment) : BatchResponse :=
  ⟨none, frags.map (fun f => ⟨f.id, 200, some f.id.asString⟩), none⟩

/-! ### Concrete inputs used by counterexamples and witnesses -/

/-- A store holding one registry object (id 0) that maps moment `"x"` to a
one-observer list; observers are numbered tokens here. -/
def parentStore : Store Nat := ⟨[[("x", [0])]]⟩

/-- A trivial GET request record. -/
def dummyRequest : RequestRecord := ⟨['u'], "GET", [], none⟩

/-- A response carrying exactly one fragment, id `"1"`, status 200. -/
def oneFragResponse : BatchResponse := ⟨none, [⟨['1'], 200, none⟩], none⟩

/-- A well-formed response carrying no fragments. -/
def emptyOkResponse : BatchResponse := ⟨none, [], none⟩

/-- A response carrying exactly one fragment, id `"3"`, status 200: its
decode allocates a one-slot array and assigns index 2, leaving a hole at
index 1. -/
def thirdFragResponse : BatchResponse := ⟨none, [⟨['3'], 200, none⟩], none⟩

/-- A three-request chunk. -/
def threeRequests : List RequestRecord := [dummyRequest, dummyRequest, dummyRequest]

/-- A two-request chunk: a GET and a POST. -/
def twoRequests : List RequestRecord :=
  [⟨['a'], "GET", [], none⟩, ⟨['b'], "POST", [], some "p"⟩]

/-- A response whose top level carries an error object. -/
def topErrorResponse : BatchResponse :=
  ⟨some ("InvalidRequest", "bad batch"), [⟨['1'], 200, none⟩], none⟩

/-! ## Theorems

General list facts used by several claims come first, then the claim
theorems. -/

theorem getD_append_length {α : Type} (l : List α) (a d : α) :
    (l ++ [a]).getD l.length d = a := by
  induction l with
  | nil => rfl
  | cons x xs ih => simp [ih]

theorem set_append_length {α : Type} (l : List α) (a b : α) :
    (l ++ [a]).set l.length b = l ++ [b] := by
  induction l with
  | nil => rfl
  | cons x xs ih => simp [ih]

theorem getD_append_lt {α : Type} (l r : List α) (i : Nat) (h : i < l.length) (d : α) :
    (l ++ r).getD i d = l.getD i d := by
  rw [List.getD_eq_getElem (l ++ r) d (by simp; omega), List.getD_eq_getElem l d h,
    List.getElem_append_left h]

theorem getD_set_self {α : Type} (l : List α) (i : Nat) (h : i < l.length) (b d : α) :
    (l.set i b).getD i d = b := by
  rw [List.getD_eq_getElem (l.set i b) d (by simpa using h), List.getElem_set]
  simp

theorem getD_set_ne {α : Type} (l : List α) (i j : Nat) (hne : i ≠ j) (b d : α) :
    (l.set i b).getD j d = l.getD j d := by
  by_cases hj : j < l.length
  · rw [List.getD_eq_getElem (l.set i b) d (by simpa using hj), List.getD_eq_getElem l d hj,
      List.getElem_set]
    simp [hne]
  · have hj' : l.length ≤ j := by omega
    rw [List.getD_eq_default (l.set i b) d (by simpa using hj'), List.getD_eq_default l d hj']

/-- C10 (confirmed): reading the `invitations` property always evaluates to
`undefined`: the getter evaluates `this.create(Invitations)` but its body
has no return statement, so the constructed object is discarded, whatever
it is. -/
theorem invitations_getter_always_undefined (create : Unit → JsValue) :
    invitationsGetter create = JsValue.undefined := rfl

theorem invitations_getter_always_undefined_witness :
    invitationsGetter (fun _ => JsValue.object 7) = JsValue.undefined :=
  invitations_getter_always_undefined (fun _ => JsValue.object 7)

/-- C1 (counterexample): a Timeline constructed with an externally supplied
registry (so in Inheriting mode) whose first local observer mutation is a
replace-mode subscribe keeps the very same registry object as the parent
(id 0) and overwrites the parent's observer list in place — so after this
first local mutation the instance's registry IS the parent's object and
the mutation is visible through the parent, contradicting the claimed
copy-on-first-write for "subscribe with any mode". -/
theorem timeline_replace_mode_shares_parent_registry :
    (timelineConstruct parentStore (some 0)).2.inheriting = true
  ∧ (onReplace (timelineConstruct parentStore (some 0)).1
      (timelineConstruct parentStore (some 0)).2 "x" 1).2.registry = 0
  ∧ (onReplace (timelineConstruct parentStore (some 0)).1
      (timelineConstruct parentStore (some 0)).2 "x" 1).2.inheriting = true
  ∧ (onReplace (timelineConstruct parentStore (some 0)).1
      (timelineConstruct parentStore (some 0)).2 "x" 1).1.get 0 = [("x", [1])]
  ∧ parentStore.get 0 = [("x", [0])] := by
  refine ⟨rfl, rfl, rfl, ?_, rfl⟩
  rfl

/-- C1 (corrected): only the append-mode subscribe path performs the
Inheriting → Owning transition: on an inheriting instance it stores the
parent registry reference, installs a deep copy as a fresh registry object
(distinct from the parent's), applies the mutation to the copy, and leaves
the parent's object untouched.  Replace-mode and prepend-mode subscribes
and `clear` perform no transition: they mutate the current working
registry object in place (aliasing and inheriting flag unchanged). -/
theorem timeline_copy_on_first_write_append_only {Obs : Type} (s : Store Obs)
    (t : TimelineState) (p : String) (h : Obs) (hin : t.inheriting = true)
    (hreg : t.registry < s.regs.length) :
    ((onSubscribe s t p h).2.inheriting = false
      ∧ (onSubscribe s t p h).2.parent = some t.registry
      ∧ (onSubscribe s t p h).2.registry ≠ t.registry
      ∧ (onSubscribe s t p h).1.get (onSubscribe s t p h).2.registry
          = addObserver (s.get t.registry) p h .add
      ∧ (onSubscribe s t p h).1.get t.registry = s.get t.registry)
    ∧ ((onReplace s t p h).2 = t
      ∧ (onReplace s t p h).1.get t.registry = addObserver (s.get t.registry) p h .replace)
    ∧ ((onPrepend s t p h).2 = t
      ∧ (onPrepend s t p h).1.get t.registry = addObserver (s.get t.registry) p h .prepend)
    ∧ (clearMoment s t p).1.2 = t := by
  have hfresh : t.registry ≠ s.regs.length := by omega
  refine ⟨⟨?_, ?_, ?_, ?_, ?_⟩, ⟨rfl, ?_⟩, ⟨rfl, ?_⟩, ?_⟩
  · simp [onSubscribe, hin, Store.alloc]
  · simp [onSubscribe, hin, Store.alloc]
  · simp [onSubscribe, hin, Store.alloc]
    omega
  · simp only [onSubscribe, hin, if_true, Store.alloc, Store.set, Store.get]
    rw [getD_append_length, set_append_length, getD_append_length]
  · simp only [onSubscribe, hin, if_true, Store.alloc, Store.set, Store.get]
    rw [getD_append_length,
      getD_set_ne _ _ _ (by simpa using hfresh.symm),
      getD_append_lt _ _ _ hreg]
  · simp only [onReplace, Store.set, Store.get]
    rw [getD_set_self _ _ hreg]
  · simp only [onPrepend, Store.set, Store.get]
    rw [getD_set_self _ _ hreg]
  · rcases hc : collGet (s.get t.registry) p with _ | l <;> simp [clearMoment, hc]

theorem timeline_copy_on_first_write_append_only_witness :
    (⟨0, true, none⟩ : TimelineState).inheriting = true
  ∧ (0 : Nat) < parentStore.regs.length
  ∧ (onSubscribe parentStore ⟨0, true, none⟩ "x" (1 : Nat)).2.registry ≠ 0
  ∧ (onSubscribe parentStore ⟨0, true, none⟩ "x" (1 : Nat)).1.get 0 = parentStore.get 0 :=
  ⟨rfl, by decide,
    (timeline_copy_on_first_write_append_only parentStore ⟨0, true, none⟩ "x" 1 rfl
      (by decide)).1.2.2.1,
    (timeline_copy_on_first_write_append_only parentStore ⟨0, true, none⟩ "x" 1 rfl
      (by decide)).1.2.2.2.2⟩

theorem emitErrorPoint_log (moments : List (String × MomentFn))
    (oc : ObserverCollection ObserverFn) (arg : String) :
    (emitErrorPoint moments oc arg).2 = [("error", arg)] := by
  unfold emitErrorPoint
  by_cases hl : ((collGet oc "error").getD []).length < 1
  · simp [hl]
  · simp only [hl, if_false]
    rcases momentFor moments "error" ((collGet oc "error").getD []) arg with _ | e <;> rfl

/-- C6 (confirmed): emitting the reserved `"error"` point with zero
registered error observers throws `Unhandled Exception: ${args[0]}` — the
raised condition carries the original argument — instead of returning; any
other point with no registered observers and no registered moment
dispatches through the default broadcast over an empty list, a no-op that
returns normally.  (The zero-observer guard in `emit` is tested only for
`p === "error"`, so no other point can fail from the emptiness check
itself.) -/
theorem emit_error_without_observers_throws (moments : List (String × MomentFn))
    (oc : ObserverCollection ObserverFn) (arg : String)
    (hobs : (collGet oc "error").getD [] = []) :
    (emit moments oc "error" arg).1 = .error ("Unhandled Exception: " ++ arg)
  ∧ ∀ p, p ≠ "error" → moments.find? (fun kv => kv.1 = p) = none →
      (collGet oc p).getD [] = [] → (emit moments oc p arg).1 = .ok () := by
  constructor
  · simp [emit, emitErrorPoint, hobs]
  · intro p hp hm ho
    simp [emit, hp, momentFor, hm, ho, broadcast]

theorem emit_error_without_observers_throws_witness :
    (collGet ([] : ObserverCollection ObserverFn) "error").getD [] = []
  ∧ (emit [] [] "error" "boom").1 = .error ("Unhandled Exception: " ++ "boom")
  ∧ (emit [] [] "log" "message").1 = .ok () :=
  ⟨rfl, (emit_error_without_observers_throws [] [] "boom" rfl).1,
    (emit_error_without_observers_throws [] [] "message" rfl).2 "log" (by decide) rfl rfl⟩

/-- C7 (confirmed): when dispatching a point other than `"error"` raises,
the raised condition is caught and re-dispatched as exactly one `"error"`
invocation on the same instance (the emit log records precisely the
original invocation followed by one error invocation carrying the raised
condition, and the overall outcome is that error invocation's outcome);
whereas a condition raised while dispatching the `"error"` point itself
(its observer list being non-empty, so the emptiness guard does not fire)
is re-thrown to the caller, with no further invocation recorded. -/
theorem emit_reroutes_errors_once (moments : List (String × MomentFn))
    (oc : ObserverCollection ObserverFn) (p arg e : String) (hp : p ≠ "error")
    (hraise : momentFor moments p ((collGet oc p).getD []) arg = .error e) :
    ((emit moments oc p arg).1 = (emitErrorPoint moments oc e).1
      ∧ (emit moments oc p arg).2 = [(p, arg), ("error", e)])
  ∧ ∀ e', ((collGet oc "error").getD []) ≠ [] →
      momentFor moments "error" ((collGet oc "error").getD []) arg = .error e' →
      (emit moments oc "error" arg).1 = .error e'
        ∧ (emit moments oc "error" arg).2 = [("error", arg)] := by
  refine ⟨⟨?_, ?_⟩, ?_⟩
  · simp [emit, hp, hraise]
  · simp [emit, hp, hraise, emitErrorPoint_log]
  · intro e' hne hraise'
    have hlen : ¬ ((collGet oc "error").getD []).length < 1 := by
      rcases hl : (collGet oc "error").getD [] with _ | ⟨o, rest⟩
      · exact absurd hl hne
      · simp [hl]
    constructor <;> simp [emit, emitErrorPoint, hlen, hraise']

theorem emit_reroutes_errors_once_witness :
    (emit [("send", fun _ _ => .error "boom"), ("error", fun _ _ => .error "again")]
        [("error", [fun _ => .ok ()])] "send" "arg").2 = [("send", "arg"), ("error", "boom")]
  ∧ (emit [("send", fun _ _ => .error "boom"), ("error", fun _ _ => .error "again")]
        [("error", [fun _ => .ok ()])] "error" "arg").1 = .error "again" :=
  ⟨(emit_reroutes_errors_once
      [("send", fun _ _ => .error "boom"), ("error", fun _ _ => .error "again")]
      [("error", [fun _ => .ok ()])] "send" "arg" "boom" (by decide) rfl).1.2,
    ((emit_reroutes_errors_once
      [("send", fun _ _ => .error "boom"), ("error", fun _ _ => .error "again")]
      [("error", [fun _ => .ok ()])] "send" "arg" "boom" (by decide) rfl).2 "again"
      (by simp [collGet, List.find?]) rfl).1⟩

theorem isPrefixOf_append_self {α : Type} [DecidableEq α] (l r : List α) :
    l.isPrefixOf (l ++ r) = true := by
  rw [List.isPrefixOf_iff_prefix]
  exact List.prefix_append l r

/-- C9 (counterexample): an absolute address containing neither `/v1.0/`
nor `/beta/` is returned unchanged — the scheme and host are not stripped;
and for a `/v1.0/` address the marker is not fully stripped: the rewrite
keeps the marker's trailing slash (`substr(index + 5)` on the
six-character marker), so the result is `/users`, not the `users` a strip
of the whole prefix would produce. -/
theorem makeUrlRelative_preserves_host_counterexample :
    isUrlAbsolute "https://example.com/foo".toList = true
  ∧ makeUrlRelative "https://example.com/foo".toList = "https://example.com/foo".toList
  ∧ makeUrlRelative "https://graph.microsoft.com/v1.0/users".toList = "/users".toList
  ∧ makeUrlRelative "https://graph.microsoft.com/v1.0/users".toList ≠ "users".toList := by
  exact ⟨rfl, rfl, rfl, by decide⟩

/-- C9 (corrected): the rewrite behaves as follows.  A non-absolute
address is returned unchanged.  An absolute address whose first `/v1.0/`
occurrence sits right after the scheme/host-plus-path-prefix `pre` is cut
to `'/' :: post`, the remainder with the marker's trailing slash kept.  An
absolute address without `/v1.0/` whose first `/beta/` occurrence sits
after `pre` is cut to `post`, the whole marker dropped.  An absolute
address containing neither marker is returned unchanged (scheme and host
preserved). -/
theorem makeUrlRelative_characterization :
    (∀ url : List Char, isUrlAbsolute url = false → makeUrlRelative url = url)
  ∧ (∀ pre post : List Char,
      idxOf ("https://".toList ++ pre ++ "/v1.0/".toList ++ post) "/v1.0/".toList
          = some (8 + pre.length) →
      makeUrlRelative ("https://".toList ++ pre ++ "/v1.0/".toList ++ post) = '/' :: post)
  ∧ (∀ pre post : List Char,
      idxOf ("https://".toList ++ pre ++ "/beta/".toList ++ post) "/v1.0/".toList = none →
      idxOf ("https://".toList ++ pre ++ "/beta/".toList ++ post) "/beta/".toList
          = some (8 + pre.length) →
      makeUrlRelative ("https://".toList ++ pre ++ "/beta/".toList ++ post) = post)
  ∧ (∀ url : List Char, isUrlAbsolute url = true →
      idxOf url "/v1.0/".toList = none → idxOf url "/beta/".toList = none →
      makeUrlRelative url = url) := by
  refine ⟨?_, ?_, ?_, ?_⟩
  · intro url h
    simp [makeUrlRelative, h]
  · intro pre post hidx
    have habs : isUrlAbsolute ("https://".toList ++ pre ++ "/v1.0/".toList ++ post) = true := by
      simp [isUrlAbsolute, isPrefixOf_append_self]
    simp only [makeUrlRelative, habs, Bool.not_true, Bool.false_eq_true, if_false, hidx]
    rw [List.append_assoc ("https://".toList ++ pre) "/v1.0/".toList post]
    have hlen : 8 + pre.length + 5 = ("https://".toList ++ pre).length + 5 := by
      simp
      omega
    rw [hlen, List.drop_append]
    rfl
  · intro pre post hv hidx
    have habs : isUrlAbsolute ("https://".toList ++ pre ++ "/beta/".toList ++ post) = true := by
      simp [isUrlAbsolute, isPrefixOf_append_self]
    simp only [makeUrlRelative, habs, Bool.not_true, Bool.false_eq_true, if_false, hv, hidx]
    rw [List.append_assoc ("https://".toList ++ pre) "/beta/".toList post]
    have hlen : 8 + pre.length + 6 = ("https://".toList ++ pre).length + 6 := by
      simp
      omega
    rw [hlen, List.drop_append]
    rfl
  · intro url habs hv hb
    have hv' : idxOf url ['/', 'v', '1', '.', '0', '/'] = none := hv
    have hb' : idxOf url ['/', 'b', 'e', 't', 'a', '/'] = none := hb
    simp [makeUrlRelative, habs, hv, hb, hv', hb']

theorem makeUrlRelative_characterization_witness :
    makeUrlRelative ("https://".toList ++ "graph.microsoft.com".toList
        ++ "/v1.0/".toList ++ "users".toList) = '/' :: "users".toList
  ∧ makeUrlRelative ("https://".toList ++ "graph.microsoft.com".toList
        ++ "/beta/".toList ++ "users".toList) = "users".toList
  ∧ makeUrlRelative "v1.0/me".toList = "v1.0/me".toList :=
  ⟨makeUrlRelative_characterization.2.1 "graph.microsoft.com".toList "users".toList rfl,
    makeUrlRelative_characterization.2.2.1 "graph.microsoft.com".toList "users".toList rfl rfl,
    makeUrlRelative_characterization.1 "v1.0/me".toList rfl⟩

/-! ### Decimal id round-trip -/

theorem digitVal_digitChar (d : Nat) (h : d < 10) : digitVal (digitChar d) = some d := by
  interval_cases d <;> rfl

theorem printNatAux_ne_nil (fuel n : Nat) (h : n < fuel) : printNatAux fuel n ≠ [] := by
  match fuel with
  | fuel + 1 =>
    unfold printNatAux
    by_cases hn : n < 10 <;> simp [hn]

theorem printNatAux_digits (fuel : Nat) :
    ∀ n c, n < fuel → c ∈ printNatAux fuel n → (digitVal c).isSome = true := by
  induction fuel with
  | zero => intro n c h; omega
  | succ fuel ih =>
    intro n c h hc
    unfold printNatAux at hc
    by_cases hn : n < 10
    · simp only [hn, if_true, List.mem_singleton] at hc
      subst hc
      rw [digitVal_digitChar n hn]
      rfl
    · simp only [hn, if_false, List.mem_append, List.mem_singleton] at hc
      rcases hc with hc | hc
      · have hdiv : n / 10 < fuel := by
          have := Nat.div_lt_self (show 0 < n by omega) (show 1 < 10 by norm_num)
          omega
        exact ih (n / 10) c hdiv hc
      · subst hc
        rw [digitVal_digitChar (n % 10) (Nat.mod_lt n (by norm_num))]
        rfl

theorem printNatAux_foldl (fuel : Nat) :
    ∀ n acc, n < fuel →
      List.foldl (fun a c => a * 10 + (digitVal c).getD 0) acc (printNatAux fuel n)
        = acc * 10 ^ (printNatAux fuel n).length + n := by
  induction fuel with
  | zero => intro n acc h; omega
  | succ fuel ih =>
    intro n acc h
    unfold printNatAux
    by_cases hn : n < 10
    · simp [hn, digitVal_digitChar n hn]
    · have hdiv : n / 10 < fuel := by
        have := Nat.div_lt_self (show 0 < n by omega) (show 1 < 10 by norm_num)
        omega
      simp only [hn, if_false, List.foldl_append, List.foldl_cons, List.foldl_nil,
        List.length_append, List.length_singleton]
      rw [ih (n / 10) acc hdiv]
      rw [digitVal_digitChar (n % 10) (Nat.mod_lt n (by norm_num))]
      rw [pow_succ, ← mul_assoc]
      simp only [Option.getD_some]
      generalize acc * 10 ^ (printNatAux fuel (n / 10)).length = K
      omega

theorem jsParseInt_printNat (n : Nat) : jsParseInt (printNat n) = some n := by
  unfold jsParseInt printNat
  have hne := printNatAux_ne_nil (n + 1) n (by omega)
  have htake : (printNatAux (n + 1) n).takeWhile (fun c => (digitVal c).isSome)
      = printNatAux (n + 1) n := by
    rw [List.takeWhile_eq_self_iff]
    intro c hc
    exact printNatAux_digits (n + 1) n c (by omega) hc
  rw [htake]
  have hisEmpty : (printNatAux (n + 1) n).isEmpty = false := by
    rcases hx : printNatAux (n + 1) n with _ | ⟨c, rest⟩
    · exact absurd hx hne
    · rfl
  simp only [hisEmpty, Bool.false_eq_true, if_false]
  rw [printNatAux_foldl (n + 1) n 0 (by omega)]
  simp

/-! ### mapIdx helpers -/

theorem map_mapIdx {α β γ : Type} (l : List α) (f : Nat → α → β) (g : β → γ) :
    (List.mapIdx f l).map g = List.mapIdx (fun i a => g (f i a)) l := by
  induction l generalizing f with
  | nil => rfl
  | cons x xs ih => rw [List.mapIdx_cons, List.map_cons, List.mapIdx_cons, ih]

theorem mapIdx_const_idx {α β : Type} (l : List α) (f : Nat → β) :
    List.mapIdx (fun i _ => f i) l = (List.range l.length).map f := by
  induction l generalizing f with
  | nil => rfl
  | cons x xs ih =>
    rw [List.mapIdx_cons, List.length_cons, List.range_succ_eq_map, List.map_cons,
      ih (fun i => f (i + 1))]
    simp [List.map_map, Function.comp_def, Nat.succ_eq_add_one]

theorem formatRequests_ids (requests : List RequestRecord) (batchId : String) :
    (formatRequests requests batchId).map (fun f => f.id)
      = (List.range requests.length).map (fun i => printNat (i + 1)) := by
  unfold formatRequests
  rw [map_mapIdx]
  exact mapIdx_const_idx requests (fun i => printNat (i + 1))

/-! ### Folding index-keyed array assignments -/

theorem jsArraySet_in_range {α : Type} (a : List α) (i : Nat) (h : i < a.length)
    (hole v : α) : jsArraySet a i hole v = a.set i v := by
  simp [jsArraySet, h]

theorem foldl_jsArraySet_length {α : Type} (ent : Nat → α) (hole : α) :
    ∀ (l : List Nat) (acc : List α), (∀ j ∈ l, j < acc.length) →
      (l.foldl (fun a j => jsArraySet a j hole (ent j)) acc).length = acc.length := by
  intro l
  induction l with
  | nil => intro acc _; rfl
  | cons j js ih =>
    intro acc hmem
    have hj : j < acc.length := hmem j (by simp)
    rw [List.foldl_cons, jsArraySet_in_range acc j hj]
    rw [ih (acc.set j (ent j)) ?_, List.length_set]
    intro x hx
    rw [List.length_set]
    exact hmem x (by simp [hx])

theorem foldl_jsArraySet_getD {α : Type} (ent : Nat → α) (hole d : α) :
    ∀ (l : List Nat) (acc : List α), (∀ j ∈ l, j < acc.length) → ∀ i,
      (l.foldl (fun a j => jsArraySet a j hole (ent j)) acc).getD i d
        = if i ∈ l then ent i else acc.getD i d := by
  intro l
  induction l with
  | nil => intro acc _ i; simp
  | cons j js ih =>
    intro acc hmem i
    have hj : j < acc.length := hmem j (by simp)
    rw [List.foldl_cons, jsArraySet_in_range acc j hj]
    rw [ih (acc.set j (ent j)) ?_ i]
    · by_cases hmemi : i ∈ js
      · simp [hmemi]
      · simp only [hmemi, if_false]
        by_cases hij : i = j
        · subst hij
          rw [getD_set_self acc i hj]
          simp
        · rw [getD_set_ne acc j i (fun hh => hij hh.symm)]
          simp [hij, hmemi]
    · intro x hx
      rw [List.length_set]
      exact hmem x (by simp [hx])

/-- Decoding a response that echoes a chunk's fragments back with status
200 reproduces one reconstructed result per request, at the request's own
position. -/
theorem parseResponse_echo (requests : List RequestRecord) (batchId : String) :
    parseResponse (echoResponse (formatRequests requests batchId))
      = .ok ⟨none, (List.range requests.length).map
          (fun i => ParsedEntry.response (some (printNat (i + 1)).asString) 200)⟩ := by
  have hresps : (echoResponse (formatRequests requests batchId)).responses
      = (List.range requests.length).map
          (fun i => (⟨printNat (i + 1), 200, some (printNat (i + 1)).asString⟩ :
            BatchResponseFragment)) := by
    show (formatRequests requests batchId).map
        (fun f => (⟨f.id, 200, some f.id.asString⟩ : BatchResponseFragment)) = _
    unfold formatRequests
    rw [map_mapIdx]
    exact mapIdx_const_idx requests
      (fun i => (⟨printNat (i + 1), 200, some (printNat (i + 1)).asString⟩ :
        BatchResponseFragment))
  show parseResponse ⟨none, (echoResponse (formatRequests requests batchId)).responses, none⟩ = _
  rw [hresps]
  unfold parseResponse
  simp only [List.length_map, List.length_range]
  rw [List.foldl_map]
  have hstep : (fun (acc : List ParsedEntry) (i : Nat) =>
      (fun acc (r : BatchResponseFragment) =>
        let entry := if r.status = 204 then ParsedEntry.emptyResponse
          else ParsedEntry.response r.body r.status
        match jsParseInt r.id with
        | some (n + 1) => jsArraySet acc n ParsedEntry.jsUndefined entry
        | _ => acc) acc
        ((⟨printNat (i + 1), 200, some (printNat (i + 1)).asString⟩ : BatchResponseFragment)))
      = fun acc i => jsArraySet acc i ParsedEntry.jsUndefined
          (ParsedEntry.response (some (printNat (i + 1)).asString) 200) := by
    funext acc i
    simp [jsParseInt_printNat (i + 1)]
  rw [hstep]
  have hlen : ∀ j ∈ List.range requests.length,
      j < (List.replicate requests.length ParsedEntry.jsNull).length := by
    intro j hj
    simp only [List.length_replicate]
    exact List.mem_range.mp hj
  refine congrArg Except.ok (congrArg _ ?_)
  refine List.ext_getElem ?_ ?_
  · rw [foldl_jsArraySet_length _ _ _ _ hlen]
    simp
  · intro i h1 h2
    have hi : i < requests.length := by
      simpa using h2
    have hgd := foldl_jsArraySet_getD
      (fun i => ParsedEntry.response (some (printNat (i + 1)).asString) 200)
      ParsedEntry.jsUndefined ParsedEntry.jsNull (List.range requests.length)
      (List.replicate requests.length ParsedEntry.jsNull) hlen i
    rw [List.getD_eq_getElem _ _ h1] at hgd
    rw [hgd]
    simp [List.mem_range.mpr hi]

/-- C5 (counterexample): decoding sizes its output array to the response's
fragment count (`new Array(graphResponse.responses.length)`), not to the
request chunk length: the two-request chunk `twoRequests` encodes to
fragments with ids `1` and `2`, yet decoding a response that echoes only
id `1` produces a one-entry result array, not an array sized to the
chunk's two requests. -/
theorem parse_sizes_to_response_count_counterexample :
    (formatRequests twoRequests "batchid").length = 2
  ∧ parseResponse oneFragResponse = .ok ⟨none, [ParsedEntry.response none 200]⟩
  ∧ (parseResponse oneFragResponse).map (fun pg => pg.responses.length) = .ok 1
  ∧ (1 : Nat) ≠ 2 := by
  exact ⟨rfl, rfl, rfl, by omega⟩

/-- C5 (corrected): encoding assigns fragment ids densely starting at 1 in
registration order (the id of the fragment at zero-based position `i` is
the decimal string of `i + 1`), and decoding a response that echoes the
chunk's ids back with status 200 yields exactly one result per request,
with `results[i]` the reconstruction of chunk position `i`'s echoed
fragment — so under the echo the output array is sized to the chunk
length; in general, however, decoding sizes its output to the response's
own fragment count. -/
theorem batch_codec_ids_and_roundtrip (requests : List RequestRecord) (batchId : String) :
    (formatRequests requests batchId).map (fun f => f.id)
        = (List.range requests.length).map (fun i => printNat (i + 1))
  ∧ parseResponse (echoResponse (formatRequests requests batchId))
        = .ok ⟨none, (List.range requests.length).map
            (fun i => ParsedEntry.response (some (printNat (i + 1)).asString) 200)⟩ :=
  ⟨formatRequests_ids requests batchId, parseResponse_echo requests batchId⟩

theorem batch_codec_ids_and_roundtrip_witness :
    (formatRequests twoRequests "batchid").map (fun f => f.id) = [['1'], ['2']]
  ∧ parseResponse (echoResponse (formatRequests twoRequests "batchid"))
      = .ok ⟨none, [ParsedEntry.response (some "1") 200, ParsedEntry.response (some "2") 200]⟩ := by
  have h := batch_codec_ids_and_roundtrip twoRequests "batchid"
  refine ⟨?_, ?_⟩
  · rw [h.1]
    rfl
  · rw [h.2]
    rfl

/-! ### Chunking lemmas -/

theorem chunksOfAux_length {α : Type} (k : Nat) (hk : 0 < k) :
    ∀ (fuel : Nat) (l : List α), l.length ≤ fuel →
      (chunksOfAux k fuel l).length = (l.length + k - 1) / k := by
  intro fuel
  induction fuel with
  | zero =>
    intro l h
    have hl : l = [] := by
      cases l
      · rfl
      · simp at h
    subst hl
    simp [chunksOfAux, Nat.div_eq_of_lt (show k - 1 < k by omega)]
  | succ fuel ih =>
    intro l h
    cases l with
    | nil => simp [chunksOfAux, Nat.div_eq_of_lt (show k - 1 < k by omega)]
    | cons x xs =>
      unfold chunksOfAux
      rw [if_neg (by omega)]
      have hdrop : ((x :: xs).drop k).length ≤ fuel := by
        simp only [List.length_drop]
        simp only [List.length_cons] at h ⊢
        omega
      simp only [List.length_cons]
      rw [ih ((x :: xs).drop k) hdrop]
      simp only [List.length_drop, List.length_cons]
      set n := xs.length + 1 with hn
      have hn1 : 1 ≤ n := by omega
      by_cases hnk : n ≤ k
      · have h2 : n - k + k - 1 = k - 1 := by omega
        have h1 : n + k - 1 = (n - 1) + k := by omega
        rw [h2, h1, Nat.add_div_right _ hk, Nat.div_eq_of_lt (show k - 1 < k by omega),
          Nat.div_eq_of_lt (show n - 1 < k by omega)]
      · have h3 : n - k + k - 1 = n - 1 := by omega
        have h1 : n + k - 1 = (n - 1) + k := by omega
        rw [h3, h1, Nat.add_div_right _ hk]

theorem chunksOfAux_flatten {α : Type} (k : Nat) (hk : 0 < k) :
    ∀ (fuel : Nat) (l : List α), l.length ≤ fuel → (chunksOfAux k fuel l).flatten = l := by
  intro fuel
  induction fuel with
  | zero =>
    intro l h
    cases l
    · rfl
    · simp at h
  | succ fuel ih =>
    intro l h
    cases l with
    | nil => rfl
    | cons x xs =>
      unfold chunksOfAux
      rw [if_neg (by omega)]
      rw [List.flatten_cons]
      have hdrop : ((x :: xs).drop k).length ≤ fuel := by
        simp only [List.length_drop, List.length_cons]
        simp only [List.length_cons] at h
        omega
      rw [ih ((x :: xs).drop k) hdrop]
      exact List.take_append_drop k (x :: xs)

theorem chunksOfAux_sizes {α : Type} (k : Nat) :
    ∀ (fuel : Nat) (l : List α) (ch : List α), ch ∈ chunksOfAux k fuel l → ch.length ≤ k := by
  intro fuel
  induction fuel with
  | zero =>
    intro l ch h
    simp [chunksOfAux] at h
  | succ fuel ih =>
    intro l ch h
    cases l with
    | nil => simp [chunksOfAux] at h
    | cons x xs =>
      unfold chunksOfAux at h
      by_cases hk : k = 0
      · rw [if_pos hk] at h
        simp at h
      · rw [if_neg hk] at h
        rcases List.mem_cons.mp h with h | h
        · subst h
          simp [List.length_take]
        · exact ih _ ch h

/-! ### Trace structure lemmas -/

theorem mem_deliveries_isDeliver (c : Nat) (idxs : List Nat) :
    ∀ e ∈ deliveries c idxs, Event.isDeliver e = true := by
  intro e he
  rcases List.mem_map.mp he with ⟨i, _, rfl⟩
  rfl

theorem filter_not_deliver_eq_nil (p : Event → Bool)
    (hp : ∀ c i, p (Event.deliver c i) = false) (pending : List Event)
    (hpend : ∀ e ∈ pending, Event.isDeliver e = true) :
    pending.filter p = [] := by
  apply List.filter_eq_nil_iff.mpr
  intro e he
  have hd := hpend e he
  cases e with
  | deliver c i => simp [hp c i]
  | transmit c => simp [Event.isDeliver] at hd
  | respond c => simp [Event.isDeliver] at hd
  | reject c i => simp [Event.isDeliver] at hd

theorem filter_deliver_eq_self (pending : List Event)
    (hpend : ∀ e ∈ pending, Event.isDeliver e = true) :
    pending.filter Event.isDeliver = pending :=
  List.filter_eq_self.mpr hpend

/-- Success-path trace structure: when every chunk from `c` on decodes and
the already-scheduled microtasks are resolve jobs, the flush returns
normally, the transmissions in the trace are exactly one per chunk in
ascending chunk order, the resolve calls are exactly the pending jobs
followed by the per-chunk delivery blocks in order, and no reject call
appears. -/
theorem runTraceAux_ok_spec (tr : Nat → TransportResult) :
    ∀ (chunks : List (List RequestRecord)) (c : Nat) (pending : List Event),
      (∀ j, c ≤ j → j < c + chunks.length → (decodeOf tr j).isSome = true) →
      (∀ e ∈ pending, Event.isDeliver e = true) →
      (runTraceAux tr chunks c pending).2 = .ok ()
      ∧ (runTraceAux tr chunks c pending).1.filter Event.isTransmit
          = (List.range' c chunks.length).map Event.transmit
      ∧ (runTraceAux tr chunks c pending).1.filter Event.isDeliver
          = pending ++ deliverBlocks tr chunks c
      ∧ (runTraceAux tr chunks c pending).1.filter Event.isReject = [] := by
  intro chunks
  induction chunks with
  | nil =>
    intro c pending _ hpend
    refine ⟨rfl, ?_, ?_, ?_⟩
    · exact filter_not_deliver_eq_nil Event.isTransmit (fun _ _ => rfl) pending hpend
    · simp only [runTraceAux, deliverBlocks, List.append_nil]
      exact filter_deliver_eq_self pending hpend
    · exact filter_not_deliver_eq_nil Event.isReject (fun _ _ => rfl) pending hpend
  | cons chunk rest ih =>
    intro c pending hok hpend
    have hc : (decodeOf tr c).isSome = true := hok c (Nat.le_refl c) (by simp)
    rcases htr : tr c with e | raw
    · simp only [decodeOf, htr] at hc
      simp at hc
    · rcases hparse : batchParse raw with e | parsed
      · simp only [decodeOf, htr, hparse, Except.toOption] at hc
        simp at hc
      · have hdeliv : deliveredIdxs parsed.responses chunk.length
            = chunkDeliveredIdxs tr chunk.length c := by
          simp only [chunkDeliveredIdxs, decodeOf, htr, hparse, Except.toOption]
        rcases hrec : runTraceAux tr rest (c + 1)
            (deliveries c (deliveredIdxs parsed.responses chunk.length)) with ⟨tail, res⟩
        have hihok : ∀ j, c + 1 ≤ j → j < c + 1 + rest.length → (decodeOf tr j).isSome = true := by
          intro j h1 h2
          exact hok j (by omega) (by simp only [List.length_cons]; omega)
        have hih := ih (c + 1) (deliveries c (deliveredIdxs parsed.responses chunk.length)) hihok
          (mem_deliveries_isDeliver c _)
        rw [hrec] at hih
        have hstep : runTraceAux tr (chunk :: rest) c pending
            = ((Event.transmit c :: pending) ++ Event.respond c :: tail, res) := by
          simp only [runTraceAux, htr, hparse, hrec]
        rw [hstep]
        have hptrans : pending.filter Event.isTransmit = [] :=
          filter_not_deliver_eq_nil Event.isTransmit (fun _ _ => rfl) pending hpend
        have hprej : pending.filter Event.isReject = [] :=
          filter_not_deliver_eq_nil Event.isReject (fun _ _ => rfl) pending hpend
        have hpdel : pending.filter Event.isDeliver = pending :=
          filter_deliver_eq_self pending hpend
        refine ⟨hih.1, ?_, ?_, ?_⟩
        · simp only [List.filter_append, List.filter_cons, List.length_cons, List.range'_succ,
            List.map_cons, hptrans, hih.2.1, Event.isTransmit]
          rfl
        · simp only [List.filter_append, List.filter_cons, hpdel, hih.2.2.1, deliverBlocks,
            hdeliv, Event.isDeliver]
          simp
        · simp only [List.filter_append, List.filter_cons, hprej, hih.2.2.2, Event.isReject]
          rfl

/-- The loop never emits a reject event for any transport behavior: the
only reject call in the source sits in a catch whose try block merely
invokes a Promise resolution function, which does not throw. -/
theorem runTraceAux_no_reject (tr : Nat → TransportResult) :
    ∀ (chunks : List (List RequestRecord)) (c : Nat) (pending : List Event),
      (∀ e ∈ pending, Event.isDeliver e = true) →
      (runTraceAux tr chunks c pending).1.filter Event.isReject = [] := by
  intro chunks
  induction chunks with
  | nil =>
    intro c pending hpend
    exact filter_not_deliver_eq_nil Event.isReject (fun _ _ => rfl) pending hpend
  | cons chunk rest ih =>
    intro c pending hpend
    have hprej : pending.filter Event.isReject = [] :=
      filter_not_deliver_eq_nil Event.isReject (fun _ _ => rfl) pending hpend
    rcases htr : tr c with e | raw
    · simp only [runTraceAux, htr, List.filter_cons, hprej, Event.isReject]
      rfl
    · rcases hparse : batchParse raw with e | parsed
      · simp only [runTraceAux, htr, hparse, List.filter_cons, hprej, Event.isReject]
        rfl
      · rcases hrec : runTraceAux tr rest (c + 1)
            (deliveries c (deliveredIdxs parsed.responses chunk.length)) with ⟨tail, res⟩
        have hih := ih (c + 1) (deliveries c (deliveredIdxs parsed.responses chunk.length))
          (mem_deliveries_isDeliver c _)
        rw [hrec] at hih
        have hstep : runTraceAux tr (chunk :: rest) c pending
            = ((Event.transmit c :: pending) ++ Event.respond c :: tail, res) := by
          simp only [runTraceAux, htr, hparse, hrec]
        rw [hstep]
        simp only [List.filter_append, List.filter_cons, hprej, hih, Event.isReject]
        rfl

/-- Failure-path trace structure: when the first `k` chunks decode but
chunk `c + k` fails (transport raise or parse failure), the flush promise
rejects with that error, and the resolve calls in the trace are exactly
the pending jobs followed by the blocks of the chunks before the failing
one. -/
theorem runTraceAux_fail_spec (tr : Nat → TransportResult) :
    ∀ (chunks : List (List RequestRecord)) (c : Nat) (pending : List Event) (k : Nat)
      (e : String), k < chunks.length →
      (∀ j, c ≤ j → j < c + k → (decodeOf tr j).isSome = true) →
      (∀ e ∈ pending, Event.isDeliver e = true) →
      failAt tr (c + k) = some e →
      (runTraceAux tr chunks c pending).2 = .error e
      ∧ (runTraceAux tr chunks c pending).1.filter Event.isDeliver
          = pending ++ deliverBlocks tr (chunks.take k) c := by
  intro chunks
  induction chunks with
  | nil =>
    intro c pending k e hk
    simp at hk
  | cons chunk rest ih =>
    intro c pending k e hk hok hpend hfail
    have hpdel : pending.filter Event.isDeliver = pending :=
      filter_deliver_eq_self pending hpend
    cases k with
    | zero =>
      rw [Nat.add_zero] at hfail
      rcases htr : tr c with e' | raw
      · simp only [failAt, htr, Option.some_inj] at hfail
        subst hfail
        have hstep : runTraceAux tr (chunk :: rest) c pending
            = (Event.transmit c :: pending, .error e') := by
          simp only [runTraceAux, htr]
        rw [hstep]
        refine ⟨rfl, ?_⟩
        simp [List.take_zero, deliverBlocks, List.filter_cons, Event.isDeliver, hpdel]
      · rcases hparse : batchParse raw with e' | parsed
        · simp only [failAt, htr, hparse, Option.some_inj] at hfail
          subst hfail
          have hstep : runTraceAux tr (chunk :: rest) c pending
              = (Event.transmit c :: pending, .error e') := by
            simp only [runTraceAux, htr, hparse]
          rw [hstep]
          refine ⟨rfl, ?_⟩
          simp [List.take_zero, deliverBlocks, List.filter_cons, Event.isDeliver, hpdel]
        · simp only [failAt, htr, hparse] at hfail
          exact absurd hfail (by simp)
    | succ k =>
      have hc : (decodeOf tr c).isSome = true := hok c (Nat.le_refl c) (by omega)
      rcases htr : tr c with e' | raw
      · simp only [decodeOf, htr] at hc
        simp at hc
      · rcases hparse : batchParse raw with e' | parsed
        · simp only [decodeOf, htr, hparse, Except.toOption] at hc
          simp at hc
        · have hdeliv : deliveredIdxs parsed.responses chunk.length
              = chunkDeliveredIdxs tr chunk.length c := by
            simp only [chunkDeliveredIdxs, decodeOf, htr, hparse, Except.toOption]
          rcases hrec : runTraceAux tr rest (c + 1)
              (deliveries c (deliveredIdxs parsed.responses chunk.length)) with ⟨tail, res⟩
          have hih := ih (c + 1) (deliveries c (deliveredIdxs parsed.responses chunk.length)) k e
            (by simp only [List.length_cons] at hk; omega)
            (fun j h1 h2 => hok j (by omega) (by omega))
            (mem_deliveries_isDeliver c _)
            (by rw [show c + 1 + k = c + (k + 1) by omega]; exact hfail)
          rw [hrec] at hih
          have hstep : runTraceAux tr (chunk :: rest) c pending
              = ((Event.transmit c :: pending) ++ Event.respond c :: tail, res) := by
            simp only [runTraceAux, htr, hparse, hrec]
          rw [hstep]
          refine ⟨hih.1, ?_⟩
          simp only [List.filter_append, List.filter_cons, hpdel, hih.2, hdeliv,
            List.take_succ_cons, deliverBlocks, Event.isDeliver]
          simp

/-! ### Counting resolve calls -/

theorem count_range (i n : Nat) : (List.range n).count i = if i < n then 1 else 0 := by
  by_cases h : i < n
  · rw [if_pos h]
    exact List.count_eq_one_of_mem (List.nodup_range n) (List.mem_range.mpr h)
  · rw [if_neg h]
    exact List.count_eq_zero.mpr (fun hm => h (List.mem_range.mp hm))

theorem deliver_injective (c : Nat) : Function.Injective (Event.deliver c) := by
  intro a b h
  injection h

theorem deliveredIdxs_nodup (arr : List ParsedEntry) (n : Nat) :
    (deliveredIdxs arr n).Nodup :=
  (List.nodup_range arr.length).filter _

theorem deliveredIdxs_pairwise (arr : List ParsedEntry) (n : Nat) :
    (deliveredIdxs arr n).Pairwise (· < ·) :=
  (List.pairwise_lt_range arr.length).filter _

theorem mem_deliveredIdxs (arr : List ParsedEntry) (n i : Nat) :
    i ∈ deliveredIdxs arr n ↔ i < arr.length ∧ slotExists arr i = true ∧ i < n := by
  simp [deliveredIdxs, List.mem_filter, List.mem_range, and_assoc]

theorem chunkDeliveredIdxs_nodup (tr : Nat → TransportResult) (n c : Nat) :
    (chunkDeliveredIdxs tr n c).Nodup := by
  rcases hd : decodeOf tr c with _ | parsed
  · simp [chunkDeliveredIdxs, hd]
  · simp only [chunkDeliveredIdxs, hd]
    exact deliveredIdxs_nodup parsed.responses n

theorem chunkDeliveredIdxs_pairwise (tr : Nat → TransportResult) (n c : Nat) :
    (chunkDeliveredIdxs tr n c).Pairwise (· < ·) := by
  rcases hd : decodeOf tr c with _ | parsed
  · simp [chunkDeliveredIdxs, hd]
  · simp only [chunkDeliveredIdxs, hd]
    exact deliveredIdxs_pairwise parsed.responses n

theorem chunkDeliveredIdxs_count (tr : Nat → TransportResult) (n c i : Nat) :
    (chunkDeliveredIdxs tr n c).count i
      = if i ∈ chunkDeliveredIdxs tr n c then 1 else 0 := by
  by_cases h : i ∈ chunkDeliveredIdxs tr n c
  · rw [if_pos h]
    exact List.count_eq_one_of_mem (chunkDeliveredIdxs_nodup tr n c) h
  · rw [if_neg h]
    exact List.count_eq_zero.mpr h

theorem count_deliveries (c0 : Nat) (idxs : List Nat) (c i : Nat) :
    (deliveries c0 idxs).count (Event.deliver c i)
      = if c0 = c then idxs.count i else 0 := by
  by_cases hc : c0 = c
  · subst hc
    rw [deliveries, List.count_map_of_injective _ _ (deliver_injective c0) i, if_pos rfl]
  · rw [List.count_eq_zero.mpr, if_neg hc]
    intro hm
    rcases List.mem_map.mp hm with ⟨a, _, ha⟩
    injection ha with h1 h2
    exact hc h1

theorem deliverBlocks_count (tr : Nat → TransportResult) :
    ∀ (chunks : List (List RequestRecord)) (c₀ c i : Nat),
      (deliverBlocks tr chunks c₀).count (Event.deliver c i)
        = if c₀ ≤ c ∧ c - c₀ < chunks.length
          then (chunkDeliveredIdxs tr ((chunks.map List.length).getD (c - c₀) 0) c).count i
          else 0 := by
  intro chunks
  induction chunks with
  | nil =>
    intro c₀ c i
    simp [deliverBlocks]
  | cons chunk rest ih =>
    intro c₀ c i
    rw [deliverBlocks, List.count_append, count_deliveries, ih (c₀ + 1) c i]
    by_cases hc : c₀ = c
    · subst hc
      have e1 : (((chunk :: rest).map List.length).getD (c₀ - c₀) 0) = chunk.length := by
        simp
      rw [e1]
      simp only [List.length_cons, eq_self_iff_true, if_true, Nat.sub_self]
      split_ifs <;> omega
    · rw [if_neg hc]
      by_cases hlt : c₀ ≤ c
      · have hsub2 : c - c₀ = (c - (c₀ + 1)) + 1 := by omega
        have e2 : (((chunk :: rest).map List.length).getD (c - c₀) 0)
            = ((rest.map List.length).getD (c - (c₀ + 1)) 0) := by
          rw [List.map_cons, hsub2, List.getD_cons_succ]
        rw [e2]
        simp only [List.length_cons]
        split_ifs <;> omega
      · rw [if_neg (by rintro ⟨h1, -⟩; omega), if_neg (by rintro ⟨h1, -⟩; omega)]

/-! ### Per-chunk delivery order -/

theorem filterMap_eq_filterMap_filter {α β : Type} (g : α → Option β) (p : α → Bool)
    (hg : ∀ x, p x = false → g x = none) :
    ∀ l : List α, l.filterMap g = (l.filter p).filterMap g := by
  intro l
  induction l with
  | nil => rfl
  | cons x xs ih =>
    rcases hp : p x with _ | _
    · rw [List.filter_cons, hp, if_neg (by simp), List.filterMap_cons, hg x hp, ih]
    · rw [List.filter_cons, hp, if_pos rfl, List.filterMap_cons, List.filterMap_cons, ih]

theorem filterMap_deliverIdx_deliveries (c c0 : Nat) (idxs : List Nat) :
    (deliveries c0 idxs).filterMap (deliverIdx c) = if c0 = c then idxs else [] := by
  rw [deliveries, List.filterMap_map]
  by_cases h : c0 = c
  · subst h
    rw [if_pos rfl]
    have hcomp : (deliverIdx c0 ∘ Event.deliver c0) = some := by
      funext i
      simp [deliverIdx]
    rw [hcomp, List.filterMap_some]
  · rw [if_neg h]
    have hcomp : (deliverIdx c ∘ Event.deliver c0) = fun _ => none := by
      funext i
      simp [deliverIdx, h]
    rw [hcomp]
    simp

theorem filterMap_deliverIdx_blocks_lt (tr : Nat → TransportResult) :
    ∀ (chunks : List (List RequestRecord)) (c₀ c : Nat), c < c₀ →
      (deliverBlocks tr chunks c₀).filterMap (deliverIdx c) = [] := by
  intro chunks
  induction chunks with
  | nil =>
    intro c₀ c _
    simp [deliverBlocks]
  | cons chunk rest ih =>
    intro c₀ c hlt
    rw [deliverBlocks, List.filterMap_append, filterMap_deliverIdx_deliveries,
      if_neg (by omega), List.nil_append]
    exact ih (c₀ + 1) c (by omega)

theorem filterMap_deliverIdx_blocks (tr : Nat → TransportResult) :
    ∀ (chunks : List (List RequestRecord)) (c₀ c : Nat), c₀ ≤ c →
      (deliverBlocks tr chunks c₀).filterMap (deliverIdx c)
        = if c - c₀ < chunks.length
          then chunkDeliveredIdxs tr ((chunks.map List.length).getD (c - c₀) 0) c
          else [] := by
  intro chunks
  induction chunks with
  | nil =>
    intro c₀ c _
    simp [deliverBlocks]
  | cons chunk rest ih =>
    intro c₀ c hle
    rw [deliverBlocks, List.filterMap_append, filterMap_deliverIdx_deliveries]
    by_cases hc : c₀ = c
    · subst hc
      rw [if_pos rfl, filterMap_deliverIdx_blocks_lt tr rest (c₀ + 1) c₀ (by omega),
        List.append_nil, Nat.sub_self]
      have e1 : (((chunk :: rest).map List.length).getD 0 0) = chunk.length := by
        simp
      rw [e1, if_pos (by simp)]
    · have hgt : c₀ + 1 ≤ c := by omega
      rw [if_neg hc, List.nil_append, ih (c₀ + 1) c hgt]
      have hsub2 : c - c₀ = (c - (c₀ + 1)) + 1 := by omega
      have e2 : (((chunk :: rest).map List.length).getD (c - c₀) 0)
          = ((rest.map List.length).getD (c - (c₀ + 1)) 0) := by
        rw [List.map_cons, hsub2, List.getD_cons_succ]
      by_cases hlen : c - (c₀ + 1) < rest.length
      · rw [if_pos hlen, if_pos (by simp only [List.length_cons]; omega), e2]
      · rw [if_neg hlen, if_neg (by simp only [List.length_cons]; omega)]

theorem executeBatch_of_ne (maxRequests : Nat) (requests : List RequestRecord)
    (tr : Nat → TransportResult) (hne : requests ≠ []) :
    executeBatch maxRequests requests tr
      = runTraceAux tr (chunksOf maxRequests requests) 0 [] := by
  rw [executeBatch, if_neg]
  have := List.length_pos.mpr hne
  omega

/-- C8 (confirmed): flushing N registered operations with maxChunkSize 20
produces exactly ceil(N/20) chunks — the concatenation of the chunks is
the registration-ordered request list, every chunk holds at most 20
operations — and, when every chunk decodes, the trace's transmissions are
exactly one per chunk in ascending order; in particular 45 operations
yield chunk sizes 20, 20, 5 and exactly the three transmissions 0, 1, 2. -/
theorem flush_chunking (requests : List RequestRecord) (tr : Nat → TransportResult)
    (hne : requests ≠ [])
    (hok : ∀ j, j < (chunksOf 20 requests).length → (decodeOf tr j).isSome = true) :
    (chunksOf 20 requests).length = (requests.length + 20 - 1) / 20
  ∧ (chunksOf 20 requests).flatten = requests
  ∧ (∀ ch ∈ chunksOf 20 requests, ch.length ≤ 20)
  ∧ (executeBatch 20 requests tr).1.filter Event.isTransmit
      = (List.range (chunksOf 20 requests).length).map Event.transmit
  ∧ (executeBatch 20 requests tr).2 = .ok ()
  ∧ (chunksOf 20 (List.replicate 45 dummyRequest)).map List.length = [20, 20, 5]
  ∧ (executeBatch 20 (List.replicate 45 dummyRequest)
        (fun _ => .respond emptyOkResponse)).1.filter Event.isTransmit
      = [Event.transmit 0, Event.transmit 1, Event.transmit 2] := by
  have hspec := runTraceAux_ok_spec tr (chunksOf 20 requests) 0 []
    (fun j h1 h2 => hok j (by omega)) (by intro e he; simp at he)
  rw [executeBatch_of_ne 20 requests tr hne]
  refine ⟨chunksOfAux_length 20 (by omega) requests.length requests (Nat.le_refl _),
    chunksOfAux_flatten 20 (by omega) requests.length requests (Nat.le_refl _),
    fun ch hch => chunksOfAux_sizes 20 requests.length requests ch hch,
    ?_, hspec.1, by rfl, by rfl⟩
  rw [hspec.2.1, List.range_eq_range']

theorem flush_chunking_witness :
    (chunksOf 20 (List.replicate 45 dummyRequest)).map List.length = [20, 20, 5]
  ∧ (chunksOf 20 (List.replicate 45 dummyRequest)).length = (45 + 20 - 1) / 20 := by
  have h := flush_chunking (List.replicate 45 dummyRequest)
    (fun _ => .respond emptyOkResponse) (by simp) (fun j hj => rfl)
  exact ⟨h.2.2.2.2.2.1, by rw [h.1]; rfl⟩

/-- C3 (counterexample): with 21 registered operations (two chunks, of 20
and 1) and a transport echoing a single covered fragment per chunk, the
flush trace is [transmit 0, respond 0, transmit 1, deliver 0 0, respond 1,
deliver 1 0]: the unique resolve call of chunk 0 (trace position 3) runs
only after the transmission of chunk 1 has begun (trace position 2),
because the resolution promise chain built by `reduce` is never awaited —
refuting "every delivery of chunk N completes strictly before the
transmission of chunk N+1 begins". -/
theorem delivery_after_next_transmit_counterexample :
    (executeBatch 20 (List.replicate 21 dummyRequest) (fun _ => .respond oneFragResponse)).1
      = [Event.transmit 0, Event.respond 0, Event.transmit 1, Event.deliver 0 0,
         Event.respond 1, Event.deliver 1 0]
  ∧ (executeBatch 20 (List.replicate 21 dummyRequest)
        (fun _ => .respond oneFragResponse)).1.count (Event.deliver 0 0) = 1
  ∧ (executeBatch 20 (List.replicate 21 dummyRequest)
        (fun _ => .respond oneFragResponse)).1.get? 2 = some (Event.transmit 1)
  ∧ (executeBatch 20 (List.replicate 21 dummyRequest)
        (fun _ => .respond oneFragResponse)).1.get? 3 = some (Event.deliver 0 0) := by
  exact ⟨rfl, rfl, rfl, rfl⟩

/-- C3 (corrected): within one chunk the resolve calls run one after the
other in strictly ascending original-registration order (for every chunk
`c` the subsequence of its resolve calls in the trace is exactly the
chunk's delivered index list — the existing slots of its decoded response
array below the chunk length, in ascending order; holes skipped by
`reduce` produce no resolve call), and all of chunk N's resolve calls
precede chunk N+1's; the cross-chunk clause of the claim fails, however:
the resolution chain is not awaited, so chunk N+1's transmission begins
before chunk N's resolve calls run. -/
theorem flush_delivery_order (requests : List RequestRecord) (tr : Nat → TransportResult)
    (hne : requests ≠ [])
    (hok : ∀ j, j < (chunksOf 20 requests).length → (decodeOf tr j).isSome = true) :
    (executeBatch 20 requests tr).1.filter Event.isDeliver
        = deliverBlocks tr (chunksOf 20 requests) 0
  ∧ (∀ c, (executeBatch 20 requests tr).1.filterMap (deliverIdx c)
        = if c < (chunksOf 20 requests).length
          then chunkDeliveredIdxs tr (((chunksOf 20 requests).map List.length).getD c 0) c
          else [])
  ∧ (∀ c, ((executeBatch 20 requests tr).1.filterMap (deliverIdx c)).Pairwise (· < ·)) := by
  have hspec := runTraceAux_ok_spec tr (chunksOf 20 requests) 0 []
    (fun j h1 h2 => hok j (by omega)) (by intro e he; simp at he)
  rw [executeBatch_of_ne 20 requests tr hne]
  have hfm : ∀ c, (runTraceAux tr (chunksOf 20 requests) 0 []).1.filterMap (deliverIdx c)
      = if c < (chunksOf 20 requests).length
        then chunkDeliveredIdxs tr (((chunksOf 20 requests).map List.length).getD c 0) c
        else [] := by
    intro c
    have hblocks := filterMap_deliverIdx_blocks tr (chunksOf 20 requests) 0 c (Nat.zero_le c)
    rw [filterMap_eq_filterMap_filter (deliverIdx c) Event.isDeliver ?_]
    · rw [hspec.2.2.1, List.nil_append, hblocks]
      simp only [Nat.sub_zero]
    · intro x hx
      cases x with
      | deliver c2 i => simp [Event.isDeliver] at hx
      | transmit c2 => rfl
      | respond c2 => rfl
      | reject c2 i => rfl
  refine ⟨by rw [hspec.2.2.1]; rfl, hfm, ?_⟩
  intro c
  rw [hfm c]
  by_cases hcl : c < (chunksOf 20 requests).length
  · rw [if_pos hcl]
    exact chunkDeliveredIdxs_pairwise tr _ c
  · rw [if_neg hcl]
    exact List.Pairwise.nil

theorem flush_delivery_order_witness :
    (executeBatch 20 threeRequests
        (fun _ => .respond thirdFragResponse)).1.filterMap (deliverIdx 0) = [0, 2]
  ∧ ((executeBatch 20 threeRequests
        (fun _ => .respond thirdFragResponse)).1.filterMap (deliverIdx 0)).Pairwise (· < ·) := by
  have h := flush_delivery_order threeRequests
    (fun _ => .respond thirdFragResponse) (by decide) (fun j hj => rfl)
  constructor
  · rw [h.2.1 0]
    rfl
  · exact h.2.2 0

/-- C2 (counterexample): one registered operation whose chunk's transport
call raises: the flush promise rejects with the transport error, and the
operation's resolver and rejecter are both never invoked (no deliver and
no reject event in the trace) — refuting "exactly one of that operation's
resolver or rejecter is invoked, exactly once, including when the
transport call for its chunk raises". -/
theorem transport_raise_settles_nothing_counterexample :
    executeBatch 20 [dummyRequest] (fun _ => .raise "network down")
      = ([Event.transmit 0], .error "network down")
  ∧ (executeBatch 20 [dummyRequest] (fun _ => .raise "network down")).1.count
      (Event.deliver 0 0) = 0
  ∧ (executeBatch 20 [dummyRequest] (fun _ => .raise "network down")).1.count
      (Event.reject 0 0) = 0 :=
  ⟨rfl, rfl, rfl⟩

/-- C2 (corrected): settlement accounting of a flush.  (i) When every
chunk decodes, an operation's resolver is invoked exactly once iff its
chunk's decoded response array has an EXISTING slot at the operation's
index below the chunk length, zero times otherwise — a response with
fewer fragments than the chunk leaves the tail operations unsettled, and
a hole of the sparse decoded array (an index skipped by an out-of-range
fragment id, which `Array.prototype.reduce` does not visit) leaves that
operation unsettled as well.  (ii) The rejecter is never invoked, under
any transport behavior.  (iii) When chunk k's transport call raises or
its response fails to decode, that error propagates out of the flush and
no operation of chunk k or of any later chunk is ever settled. -/
theorem flush_settlement_accounting (requests : List RequestRecord)
    (tr : Nat → TransportResult) (hne : requests ≠ []) :
    ((∀ j, j < (chunksOf 20 requests).length → (decodeOf tr j).isSome = true) →
      ∀ c i, (executeBatch 20 requests tr).1.count (Event.deliver c i)
        = if c < (chunksOf 20 requests).length
              ∧ i ∈ chunkDeliveredIdxs tr (((chunksOf 20 requests).map List.length).getD c 0) c
          then 1 else 0)
  ∧ (∀ c i, (executeBatch 20 requests tr).1.count (Event.reject c i) = 0)
  ∧ (∀ k e, k < (chunksOf 20 requests).length →
      (∀ j, j < k → (decodeOf tr j).isSome = true) →
      failAt tr k = some e →
      (executeBatch 20 requests tr).2 = .error e
      ∧ ∀ c i, k ≤ c → (executeBatch 20 requests tr).1.count (Event.deliver c i) = 0) := by
  rw [executeBatch_of_ne 20 requests tr hne]
  refine ⟨?_, ?_, ?_⟩
  · intro hok c i
    have hspec := runTraceAux_ok_spec tr (chunksOf 20 requests) 0 []
      (fun j h1 h2 => hok j (by omega)) (by intro e he; simp at he)
    have hcf : (runTraceAux tr (chunksOf 20 requests) 0 []).1.count (Event.deliver c i)
        = ((runTraceAux tr (chunksOf 20 requests) 0 []).1.filter Event.isDeliver).count
            (Event.deliver c i) := (List.count_filter rfl).symm
    rw [hcf, hspec.2.2.1, List.nil_append, deliverBlocks_count]
    simp only [Nat.zero_le, true_and, Nat.sub_zero]
    by_cases hcl : c < (chunksOf 20 requests).length
    · rw [if_pos hcl, chunkDeliveredIdxs_count]
      by_cases hm : i ∈ chunkDeliveredIdxs tr
          (((chunksOf 20 requests).map List.length).getD c 0) c
      · rw [if_pos hm, if_pos ⟨hcl, hm⟩]
      · rw [if_neg hm, if_neg (by tauto)]
    · rw [if_neg hcl, if_neg (by tauto)]
  · intro c i
    have hnr := runTraceAux_no_reject tr (chunksOf 20 requests) 0 []
      (by intro e he; simp at he)
    have hcf : (runTraceAux tr (chunksOf 20 requests) 0 []).1.count (Event.reject c i)
        = ((runTraceAux tr (chunksOf 20 requests) 0 []).1.filter Event.isReject).count
            (Event.reject c i) := (List.count_filter rfl).symm
    rw [hcf, hnr, List.count_nil]
  · intro k e hk hprior hfail
    have hspec := runTraceAux_fail_spec tr (chunksOf 20 requests) 0 [] k e hk
      (fun j h1 h2 => hprior j (by omega)) (by intro x hx; simp at hx)
      (by rw [Nat.zero_add]; exact hfail)
    refine ⟨hspec.1, ?_⟩
    intro c i hkc
    have hcf : (runTraceAux tr (chunksOf 20 requests) 0 []).1.count (Event.deliver c i)
        = ((runTraceAux tr (chunksOf 20 requests) 0 []).1.filter Event.isDeliver).count
            (Event.deliver c i) := (List.count_filter rfl).symm
    rw [hcf, hspec.2, List.nil_append, deliverBlocks_count, if_neg]
    rintro ⟨-, h2⟩
    have hmin : ((chunksOf 20 requests).take k).length ≤ k := by
      rw [List.length_take]
      exact Nat.min_le_left k _
    omega

theorem flush_settlement_accounting_witness :
    (executeBatch 20 threeRequests (fun _ => .respond thirdFragResponse)).1.count
        (Event.deliver 0 0) = 1
  ∧ (executeBatch 20 threeRequests (fun _ => .respond thirdFragResponse)).1.count
        (Event.deliver 0 1) = 0
  ∧ (executeBatch 20 threeRequests (fun _ => .respond thirdFragResponse)).1.count
        (Event.deliver 0 2) = 1
  ∧ (executeBatch 20 threeRequests (fun _ => .respond thirdFragResponse)).1.count
        (Event.reject 0 1) = 0 := by
  have h := flush_settlement_accounting threeRequests (fun _ => .respond thirdFragResponse)
    (by decide)
  refine ⟨?_, ?_, ?_, h.2.1 0 1⟩
  · rw [h.1 (fun j hj => rfl) 0 0]
    decide
  · rw [h.1 (fun j hj => rfl) 0 1]
    decide
  · rw [h.1 (fun j hj => rfl) 0 2]
    decide

/-- C4 (counterexample): a chunk of one operation whose aggregate response
carries a top-level error object: decoding throws the
`Error Porcessing Batch: (code) message` error, that error propagates out
of the flush (the flush promise rejects) — and the chunk's operation is
NOT rejected, nor resolved: no reject and no deliver event occurs,
refuting "every PendingOperation in that chunk is rejected with the same
BatchProcessingError". -/
theorem top_level_error_rejects_nothing_counterexample :
    executeBatch 20 [dummyRequest] (fun _ => .respond topErrorResponse)
      = ([Event.transmit 0], .error "Error Porcessing Batch: (InvalidRequest) bad batch")
  ∧ (executeBatch 20 [dummyRequest] (fun _ => .respond topErrorResponse)).1.count
      (Event.reject 0 0) = 0
  ∧ (executeBatch 20 [dummyRequest] (fun _ => .respond topErrorResponse)).1.count
      (Event.deliver 0 0) = 0 :=
  ⟨rfl, rfl, rfl⟩

/-- C4 (corrected): a top-level error object makes decoding fail with the
BatchProcessingError message surfacing the error's code and message; that
error propagates out of the flush promise instead of rejecting the
operations: none of the failing chunk's (or any later chunk's) operations
is resolved, and none is rejected either — the rejecter is never invoked
at all. -/
theorem top_level_error_aborts_flush (requests : List RequestRecord)
    (tr : Nat → TransportResult) (raw : BatchResponse) (code message : String) (k : Nat)
    (hne : requests ≠ [])
    (hk : k < (chunksOf 20 requests).length)
    (hprior : ∀ j, j < k → (decodeOf tr j).isSome = true)
    (htr : tr k = .respond raw)
    (herr : raw.error = some (code, message)) :
    batchParse raw = .error ("Error Porcessing Batch: (" ++ code ++ ") " ++ message)
  ∧ (executeBatch 20 requests tr).2
      = .error ("Error Porcessing Batch: (" ++ code ++ ") " ++ message)
  ∧ (∀ c i, k ≤ c → (executeBatch 20 requests tr).1.count (Event.deliver c i) = 0)
  ∧ (∀ c i, (executeBatch 20 requests tr).1.count (Event.reject c i) = 0) := by
  have hbp : batchParse raw
      = .error ("Error Porcessing Batch: (" ++ code ++ ") " ++ message) := by
    simp only [batchParse, herr]
  have hfail : failAt tr k
      = some ("Error Porcessing Batch: (" ++ code ++ ") " ++ message) := by
    simp only [failAt, htr, hbp]
  rw [executeBatch_of_ne 20 requests tr hne]
  have hspec := runTraceAux_fail_spec tr (chunksOf 20 requests) 0 [] k _ hk
    (fun j h1 h2 => hprior j (by omega)) (by intro x hx; simp at hx)
    (by rw [Nat.zero_add]; exact hfail)
  refine ⟨hbp, hspec.1, ?_, ?_⟩
  · intro c i hkc
    have hcf : (runTraceAux tr (chunksOf 20 requests) 0 []).1.count (Event.deliver c i)
        = ((runTraceAux tr (chunksOf 20 requests) 0 []).1.filter Event.isDeliver).count
            (Event.deliver c i) := (List.count_filter rfl).symm
    rw [hcf, hspec.2, List.nil_append, deliverBlocks_count, if_neg]
    rintro ⟨-, h2⟩
    have hmin : ((chunksOf 20 requests).take k).length ≤ k := by
      rw [List.length_take]
      exact Nat.min_le_left k _
    omega
  · intro c i
    have hnr := runTraceAux_no_reject tr (chunksOf 20 requests) 0 []
      (by intro x hx; simp at hx)
    have hcf : (runTraceAux tr (chunksOf 20 requests) 0 []).1.count (Event.reject c i)
        = ((runTraceAux tr (chunksOf 20 requests) 0 []).1.filter Event.isReject).count
            (Event.reject c i) := (List.count_filter rfl).symm
    rw [hcf, hnr, List.count_nil]

theorem top_level_error_aborts_flush_witness :
    (executeBatch 20 [dummyRequest] (fun _ => .respond topErrorResponse)).2
      = .error ("Error Porcessing Batch: (" ++ "InvalidRequest" ++ ") " ++ "bad batch") := by
  have h := top_level_error_aborts_flush [dummyRequest]
    (fun _ => .respond topErrorResponse) topErrorResponse "InvalidRequest" "bad batch" 0
    (by simp) (by decide) (fun j hj => absurd hj (Nat.not_lt_zero j)) rfl rfl
  exact h.2.1

end PnP
